import Mathlib

/-!
Verification of the MMT launcher module (`scripts/__init__.py`).

The module computes a set of installation paths anchored at the directory
containing the module itself and exposes `mmt_javamain`, which assembles the
argument vector for launching a Java main class.

The embedding mirrors the CPython `posixpath` implementations of `join`,
`normpath`, `abspath` and `isabs` (the platform the module targets), working
on `String` via its underlying character list.  The module constants are
parameterized by an environment carrying the process working directory
(consumed by `abspath` on relative inputs) and the resolved directory of the
module (`__self_dir`, the output of
`os.path.dirname(os.path.realpath(__file__))`).
-/

/-- Python `str.split('/')`: splits a character list at every `'/'`,
keeping empty segments.  Always returns a nonempty list of segments. -/
def splitSlashAux : List Char → List (List Char)
  | [] => [[]]
  | c :: cs =>
    let rest := splitSlashAux cs
    if c = '/' then [] :: rest
    else
      match rest with
      | [] => [[c]]
      | y :: ys => (c :: y) :: ys

/-- Python `'/'.join(comps)` on character lists. -/
def joinSlashAux : List (List Char) → List Char
  | [] => []
  | [x] => x
  | x :: y :: ys => x ++ '/' :: joinSlashAux (y :: ys)

/-- `posixpath.isabs`: a path is absolute iff it starts with `'/'`. -/
def posix_isabs (p : String) : Bool := p.data.take 1 = ['/']

/-- `posixpath.join(a, b)` (two-argument form): if `b` is absolute the
result is `b`; if `a` is empty or ends with a slash, concatenate; otherwise
insert a slash. -/
def posix_join (a b : String) : String :=
  if posix_isabs b then b
  else if a = "" ∨ a.data.getLast? = some '/' then String.mk (a.data ++ b.data)
  else String.mk (a.data ++ '/' :: b.data)

/-- The component `'.'` as a character list. -/
def dotC : List Char := ['.']

/-- The component `'..'` as a character list. -/
def dotdotC : List Char := ['.', '.']

/-- One iteration of the component-normalisation loop in
`posixpath.normpath`: skip empty and `'.'` components, append ordinary
components (and `'..'` when it cannot cancel), and pop the last component
when `'..'` cancels it. -/
def normStep (slashes : Nat) (acc : List (List Char)) (comp : List Char) :
    List (List Char) :=
  if comp = [] ∨ comp = dotC then acc
  else if comp ≠ dotdotC ∨ (slashes = 0 ∧ acc = []) ∨
      (acc ≠ [] ∧ acc.getLast? = some dotdotC) then
    acc ++ [comp]
  else if acc ≠ [] then acc.dropLast
  else acc

/-- The `initial_slashes` count of `posixpath.normpath`: `1` for a path
starting with one slash, `2` for exactly two leading slashes, `0` otherwise
(three or more leading slashes also count as `1`). -/
def normSlashes (d : List Char) : Nat :=
  if d.take 1 = ['/'] then
    if d.take 2 = ['/', '/'] ∧ d.take 3 ≠ ['/', '/', '/'] then 2 else 1
  else 0

/-- The final reassembly step of `posixpath.normpath`: prepend the leading
slashes to the joined components, returning `"."` for an empty result. -/
def normAssemble (slashes : Nat) (newComps : List (List Char)) : String :=
  if (List.replicate slashes '/' ++ joinSlashAux newComps : List Char) = []
  then "."
  else String.mk (List.replicate slashes '/' ++ joinSlashAux newComps)

/-- `posixpath.normpath`: collapse `'.'`, `'..'` and repeated slashes,
preserving the one-or-two leading slashes convention. -/
def posix_normpath (p : String) : String :=
  if p = "" then "."
  else
    normAssemble (normSlashes p.data)
      ((splitSlashAux p.data).foldl (normStep (normSlashes p.data)) [])

/-- `posixpath.abspath`: join a relative path onto the working directory,
then normalise. -/
def posix_abspath (cwd p : String) : String :=
  if posix_isabs p then posix_normpath p
  else posix_normpath (posix_join cwd p)

/-- `os.pardir` on POSIX. -/
def os_pardir : String := ".."

/-- The ambient process state the module reads at import time: the working
directory (used by `abspath` on relative paths) and `__self_dir`, the
symlink-resolved directory containing the module. -/
structure Env where
  cwd : String
  self_dir : String

/-- `MMT_VERSION = '0.11.1'`. -/
def MMT_VERSION : String := "0.11.1"

/-- `MMT_ROOT = os.path.abspath(os.path.join(__self_dir, os.pardir))`. -/
def MMT_ROOT (e : Env) : String :=
  posix_abspath e.cwd (posix_join e.self_dir os_pardir)

/-- `ENGINES_DIR = os.path.join(MMT_ROOT, 'engines')`. -/
def ENGINES_DIR (e : Env) : String := posix_join (MMT_ROOT e) "engines"

/-- `RUNTIME_DIR = os.path.join(MMT_ROOT, 'runtime')`. -/
def RUNTIME_DIR (e : Env) : String := posix_join (MMT_ROOT e) "runtime"

/-- `OPT_DIR = os.path.join(MMT_ROOT, 'opt')`. -/
def OPT_DIR (e : Env) : String := posix_join (MMT_ROOT e) "opt"

/-- `LIB_DIR = os.path.join(MMT_ROOT, 'lib')`. -/
def LIB_DIR (e : Env) : String := posix_join (MMT_ROOT e) "lib"

/-- `BUILD_DIR = os.path.join(MMT_ROOT, 'build')`. -/
def BUILD_DIR (e : Env) : String := posix_join (MMT_ROOT e) "build"

/-- `BIN_DIR = os.path.join(OPT_DIR, 'bin')`. -/
def BIN_DIR (e : Env) : String := posix_join (OPT_DIR e) "bin"

/-- `MMT_JAR = os.path.join(BUILD_DIR, 'mmt-' + MMT_VERSION + ".jar")`. -/
def MMT_JAR (e : Env) : String :=
  posix_join (BUILD_DIR e) ("mmt-" ++ MMT_VERSION ++ ".jar")

/-- `MMT_LIBS = BUILD_DIR`. -/
def MMT_LIBS (e : Env) : String := BUILD_DIR e

/-- `mmt_javamain(main_class, args=None)`: builds the fixed six-element
command and appends `args` when it is not `None`. -/
def mmt_javamain (e : Env) (main_class : String)
    (args : Option (List String)) : List String :=
  let command := ["java", "-cp", MMT_JAR e, "-Dmmt.home=" ++ MMT_ROOT e,
    "-Djava.library.path=" ++ MMT_LIBS e, main_class]
  match args with
  | none => command
  | some a => command ++ a

/-- An absolute, already-canonical path (the shape `os.path.realpath`
produces) presented by its slash-separated components. -/
def mkAbs (comps : List (List Char)) : String :=
  String.mk ('/' :: joinSlashAux comps)

/-- A canonical path component: nonempty, slash-free, and neither `'.'`
nor `'..'`.  `realpath` output consists of such components. -/
def validComp (c : List Char) : Prop :=
  c ≠ [] ∧ '/' ∉ c ∧ c ≠ dotC ∧ c ≠ dotdotC

instance (c : List Char) : Decidable (validComp c) := by
  unfold validComp; infer_instance

/-- A Python heap of list-of-string objects; references are indices and
allocation appends a fresh cell. -/
structure PyHeap where
  cells : List (List String)

/-- Allocate a fresh list object, returning the new heap and its reference. -/
def heapAlloc (h : PyHeap) (v : List String) : PyHeap × Nat :=
  (⟨h.cells ++ [v]⟩, h.cells.length)

/-- Read the list object behind a reference. -/
def heapRead (h : PyHeap) (r : Nat) : List String := h.cells.getD r []

/-- Overwrite the list object behind a reference (in-place mutation). -/
def heapWrite (h : PyHeap) (r : Nat) (v : List String) : PyHeap :=
  ⟨h.cells.set r v⟩

/-- `mmt_javamain` at the heap level: the list literal allocates a fresh
object, `command += args` mutates that fresh object in place, and the
function returns the fresh object's reference. -/
def mmt_javamain_heap (e : Env) (h : PyHeap) (main_class : String)
    (argsRef : Option Nat) : PyHeap × Nat :=
  let p := heapAlloc h ["java", "-cp", MMT_JAR e, "-Dmmt.home=" ++ MMT_ROOT e,
    "-Djava.library.path=" ++ MMT_LIBS e, main_class]
  match argsRef with
  | none => p
  | some r => (heapWrite p.1 p.2 (heapRead p.1 p.2 ++ heapRead p.1 r), p.2)

/-- A sample environment used by concrete witnesses. -/
def envA : Env := ⟨"/", "/mmt/scripts"⟩

/-- A sample one-cell heap used by concrete witnesses. -/
def heapA : PyHeap := ⟨[["--a"]]⟩

theorem listGetD_append_left {α} (l m : List α) (n : Nat) (d : α)
    (h : n < l.length) : (l ++ m).getD n d = l.getD n d := by
  induction l generalizing n with
  | nil => simp at h
  | cons a t ih =>
    cases n with
    | zero => rfl
    | succ k => simpa [List.getD] using ih k (by simpa using h)

theorem listGetD_append_length {α} (l : List α) (v d : α) :
    (l ++ [v]).getD l.length d = v := by
  induction l with
  | nil => rfl
  | cons a t ih => simp [List.getD]

theorem listGetD_set_ne {α} (l : List α) (i j : Nat) (v d : α) (h : i ≠ j) :
    (l.set i v).getD j d = l.getD j d := by
  induction l generalizing i j with
  | nil => rfl
  | cons a t ih =>
    cases i with
    | zero =>
      cases j with
      | zero => exact absurd rfl h
      | succ k => rfl
    | succ i' =>
      cases j with
      | zero => rfl
      | succ k => simpa [List.getD] using ih i' k fun hik => h (by omega)

theorem listGetD_set_self {α} (l : List α) (i : Nat) (v d : α)
    (h : i < l.length) : (l.set i v).getD i d = v := by
  induction l generalizing i with
  | nil => simp at h
  | cons a t ih =>
    cases i with
    | zero => rfl
    | succ i' => simpa [List.getD] using ih i' (by simpa using h)

/-- The value behind the reference returned by the heap-level call equals
the pure `mmt_javamain` applied to the content of the argument object. -/
theorem mmt_javamain_heap_value (e : Env) (h : PyHeap) (mc : String)
    (r : Nat) (hr : r < h.cells.length) :
    heapRead (mmt_javamain_heap e h mc (some r)).1
        (mmt_javamain_heap e h mc (some r)).2 =
      mmt_javamain e mc (some (heapRead h r)) := by
  simp only [mmt_javamain_heap, heapAlloc, heapWrite, heapRead, mmt_javamain]
  rw [listGetD_set_self _ _ _ _ (by simp), listGetD_append_length,
    listGetD_append_left _ _ _ _ hr]

/-- The heap-level call leaves every pre-existing object unchanged. -/
theorem mmt_javamain_heap_frame (e : Env) (h : PyHeap) (mc : String)
    (r s : Nat) (hs : s < h.cells.length) :
    heapRead (mmt_javamain_heap e h mc (some r)).1 s = heapRead h s := by
  simp only [mmt_javamain_heap, heapAlloc, heapWrite, heapRead]
  rw [listGetD_set_ne _ _ _ _ _ (Nat.ne_of_gt hs),
    listGetD_append_left _ _ _ _ hs]

theorem string_data_mk (l : List Char) : (String.mk l).data = l := rfl

theorem string_mk_ne_empty (c : Char) (l : List Char) :
    String.mk (c :: l) ≠ "" := by
  intro hc
  exact List.noConfusion (congrArg String.data hc)

theorem splitSlashAux_ne_nil (d : List Char) : splitSlashAux d ≠ [] := by
  induction d with
  | nil => simp [splitSlashAux]
  | cons c cs ih =>
    by_cases hc : c = '/'
    · simp [splitSlashAux, hc]
    · simp only [splitSlashAux, if_neg hc]
      cases splitSlashAux cs <;> simp

theorem splitSlashAux_slash_append (a t : List Char) (ha : '/' ∉ a) :
    splitSlashAux (a ++ '/' :: t) = a :: splitSlashAux t := by
  induction a with
  | nil => simp [splitSlashAux]
  | cons c a' ih =>
    have hc : c ≠ '/' := fun h => ha (by simp [h])
    have ha' : '/' ∉ a' := fun h => ha (List.mem_cons_of_mem _ h)
    simp only [List.cons_append, splitSlashAux, List.append_eq, ih ha',
      if_neg hc]

theorem splitSlashAux_no_slash (x : List Char) (hx : '/' ∉ x) :
    splitSlashAux x = [x] := by
  induction x with
  | nil => rfl
  | cons c x' ih =>
    have hc : c ≠ '/' := fun h => hx (by simp [h])
    have hx' : '/' ∉ x' := fun h => hx (List.mem_cons_of_mem _ h)
    simp only [splitSlashAux, ih hx', if_neg hc]

theorem splitSlashAux_joinSlashAux (L : List (List Char))
    (hL : ∀ c ∈ L, '/' ∉ c) (hne : L ≠ []) :
    splitSlashAux (joinSlashAux L) = L := by
  induction L with
  | nil => cases hne rfl
  | cons x xs ih =>
    cases xs with
    | nil => exact splitSlashAux_no_slash x (hL x (by simp))
    | cons y ys =>
      show splitSlashAux (x ++ '/' :: joinSlashAux (y :: ys)) = _
      rw [splitSlashAux_slash_append _ _ (hL x (by simp)),
        ih (fun c hc => hL c (List.mem_cons_of_mem _ hc)) (by simp)]

theorem joinSlashAux_append_single (L : List (List Char)) (x : List Char)
    (h : L ≠ []) :
    joinSlashAux (L ++ [x]) = joinSlashAux L ++ '/' :: x := by
  induction L with
  | nil => cases h rfl
  | cons a t ih =>
    cases t with
    | nil => rfl
    | cons b bs =>
      have hb := ih (List.cons_ne_nil b bs)
      show a ++ '/' :: joinSlashAux ((b :: bs) ++ [x]) = _
      rw [hb]
      simp [joinSlashAux]

theorem joinSlashAux_ne_nil (L : List (List Char))
    (h1 : ∀ c ∈ L, c ≠ []) (h2 : L ≠ []) : joinSlashAux L ≠ [] := by
  cases L with
  | nil => cases h2 rfl
  | cons x xs =>
    cases xs with
    | nil => exact h1 x (by simp)
    | cons y ys => simp [joinSlashAux]

theorem listGetLast?_mem {α} (l : List α) (a : α) (h : l.getLast? = some a) :
    a ∈ l := by
  induction l with
  | nil => cases h
  | cons x xs ih =>
    cases xs with
    | nil =>
      simp only [List.getLast?_singleton, Option.some.injEq] at h
      simp [h]
    | cons y ys =>
      rw [List.getLast?_cons_cons] at h
      exact List.mem_cons_of_mem _ (ih h)

theorem listGetLast?_cons_of_ne {α} (a : α) (l : List α) (h : l ≠ []) :
    (a :: l).getLast? = l.getLast? := by
  cases l with
  | nil => cases h rfl
  | cons b bs => rw [List.getLast?_cons_cons]

theorem listGetLast?_exists {α} (l : List α) (h : l ≠ []) :
    ∃ a, l.getLast? = some a := by
  cases hl : l.getLast? with
  | none => exact absurd (List.getLast?_eq_none_iff.mp hl) h
  | some a => exact ⟨a, rfl⟩

theorem joinSlashAux_getLast_ne_slash (L : List (List Char))
    (h1 : ∀ c ∈ L, c ≠ [] ∧ '/' ∉ c) (h2 : L ≠ []) (ch : Char)
    (hch : (joinSlashAux L).getLast? = some ch) : ch ≠ '/' := by
  induction L with
  | nil => cases h2 rfl
  | cons x xs ih =>
    cases xs with
    | nil =>
      intro hche
      subst hche
      exact (h1 x (by simp)).2 (listGetLast?_mem x _ hch)
    | cons y ys =>
      have hjne : joinSlashAux (y :: ys) ≠ [] :=
        joinSlashAux_ne_nil _ (fun c hc =>
          (h1 c (List.mem_cons_of_mem _ hc)).1) (by simp)
      have hx : joinSlashAux (x :: y :: ys) =
          x ++ '/' :: joinSlashAux (y :: ys) := rfl
      rw [hx, List.getLast?_append_cons,
        listGetLast?_cons_of_ne _ _ hjne] at hch
      exact ih (fun c hc => h1 c (List.mem_cons_of_mem _ hc)) (by simp) hch

theorem joinSlashAux_head_shape (x : List Char) (xs : List (List Char)) :
    ∃ r, joinSlashAux (x :: xs) = x ++ r := by
  cases xs with
  | nil => exact ⟨[], by simp [joinSlashAux]⟩
  | cons y ys => exact ⟨'/' :: joinSlashAux (y :: ys), rfl⟩

theorem normFold_ordinary (L : List (List Char)) (i : Nat) :
    ∀ acc, (∀ c ∈ L, c ≠ [] ∧ c ≠ dotC ∧ c ≠ dotdotC) →
      List.foldl (normStep i) acc L = acc ++ L := by
  induction L with
  | nil => intro acc _; simp
  | cons x xs ih =>
    intro acc h
    have hx := h x (by simp)
    have h1 : ¬(x = [] ∨ x = dotC) := by
      push_neg
      exact ⟨hx.1, hx.2.1⟩
    have h2 : x ≠ dotdotC ∨ (i = 0 ∧ acc = []) ∨
        (acc ≠ [] ∧ acc.getLast? = some dotdotC) := Or.inl hx.2.2
    rw [List.foldl_cons]
    have hstep : normStep i acc x = acc ++ [x] := by
      simp only [normStep, if_neg h1, if_pos h2]
    rw [hstep, ih _ (fun c hc => h c (List.mem_cons_of_mem _ hc))]
    simp

theorem normStep_dotdot (i : Nat) (hi : i ≠ 0) (acc : List (List Char))
    (hacc : ∀ c ∈ acc, c ≠ dotdotC) :
    normStep i acc dotdotC = acc.dropLast := by
  have h1 : ¬(dotdotC = [] ∨ dotdotC = dotC) := by decide
  have h2 : ¬(dotdotC ≠ dotdotC ∨ (i = 0 ∧ acc = []) ∨
      (acc ≠ [] ∧ acc.getLast? = some dotdotC)) := by
    push_neg
    refine ⟨rfl, fun h => absurd h hi, fun _ hl => ?_⟩
    exact absurd rfl (hacc dotdotC (listGetLast?_mem _ _ hl))
  simp only [normStep, if_neg h1, if_neg h2]
  by_cases hn : acc = []
  · subst hn; simp
  · rw [if_pos hn]

theorem posix_join_mkAbs_pardir (comps : List (List Char))
    (h : ∀ c ∈ comps, validComp c) :
    posix_join (mkAbs comps) os_pardir =
      String.mk ('/' :: joinSlashAux (comps ++ [dotdotC])) := by
  cases comps with
  | nil => decide
  | cons c cs =>
    have hvc := h c (by simp)
    have hall_ne : ∀ x ∈ c :: cs, x ≠ [] := fun x hx => ((h x hx).1)
    have hjne : joinSlashAux (c :: cs) ≠ [] :=
      joinSlashAux_ne_nil _ hall_ne (by simp)
    have hnotabs : ¬(posix_isabs os_pardir = true) := by decide
    have hcond : ¬(mkAbs (c :: cs) = "" ∨
        (mkAbs (c :: cs)).data.getLast? = some '/') := by
      push_neg
      constructor
      · exact string_mk_ne_empty _ _
      · intro hl
        rw [show (mkAbs (c :: cs)).data = '/' :: joinSlashAux (c :: cs)
            from rfl,
          listGetLast?_cons_of_ne _ _ hjne] at hl
        exact absurd rfl (joinSlashAux_getLast_ne_slash (c :: cs)
          (fun x hx => ⟨(h x hx).1, (h x hx).2.1⟩) (by simp) '/' hl)
    rw [posix_join, if_neg hnotabs, if_neg hcond]
    show String.mk (('/' :: joinSlashAux (c :: cs)) ++ '/' :: dotdotC) = _
    rw [List.cons_append,
      joinSlashAux_append_single (c :: cs) dotdotC (by simp)]

theorem posix_abspath_of_abs (cwd : String) (w : List Char) :
    posix_abspath cwd (String.mk ('/' :: w)) =
      posix_normpath (String.mk ('/' :: w)) := by
  rw [posix_abspath, if_pos]
  simp [posix_isabs]

theorem normSlashes_one (M : List Char) (hM1 : M.take 1 ≠ ['/']) :
    normSlashes ('/' :: M) = 1 := by
  rw [normSlashes, if_pos (by simp), if_neg]
  intro hand
  have h2 := hand.1
  rw [show ('/' :: M).take 2 = '/' :: M.take 1 from rfl] at h2
  exact hM1 (by injection h2)

theorem normAssemble_one (L : List (List Char)) :
    normAssemble 1 L = String.mk ('/' :: joinSlashAux L) := by
  rw [normAssemble, if_neg]
  · rfl
  · simp

theorem posix_normpath_slash (M : List Char) (hM1 : M.take 1 ≠ ['/']) :
    posix_normpath (String.mk ('/' :: M)) =
      String.mk ('/' :: joinSlashAux
        ((splitSlashAux ('/' :: M)).foldl (normStep 1) [])) := by
  rw [posix_normpath, if_neg (string_mk_ne_empty _ _)]
  rw [string_data_mk, normSlashes_one M hM1, normAssemble_one]

theorem mmt_root_parent_core (cwd : String) (comps : List (List Char))
    (h : ∀ c ∈ comps, validComp c) :
    MMT_ROOT ⟨cwd, mkAbs comps⟩ = mkAbs comps.dropLast := by
  have hM1 : (joinSlashAux (comps ++ [dotdotC])).take 1 ≠ ['/'] := by
    cases comps with
    | nil => decide
    | cons c cs =>
      obtain ⟨r, hr⟩ := joinSlashAux_head_shape c (cs ++ [dotdotC])
      rw [show (c :: cs) ++ [dotdotC] = c :: (cs ++ [dotdotC]) from rfl, hr]
      obtain ⟨ch, c', hc⟩ : ∃ ch c', c = ch :: c' := by
        cases hcc : c with
        | nil => exact absurd hcc (h c (by simp)).1
        | cons ch c' => exact ⟨ch, c', rfl⟩
      have hch : ch ≠ '/' := by
        intro he
        exact (h c (by simp)).2.1 (by rw [hc, he]; simp)
      rw [hc]
      intro habs
      exact hch (by injection habs)
  have hslashfree : ∀ x ∈ comps ++ [dotdotC], '/' ∉ x := by
    intro x hx
    rcases List.mem_append.mp hx with h1 | h1
    · exact (h x h1).2.1
    · rw [List.mem_singleton.mp h1]; decide
  show posix_abspath cwd (posix_join (mkAbs comps) os_pardir) =
    mkAbs comps.dropLast
  rw [posix_join_mkAbs_pardir comps h, posix_abspath_of_abs,
    posix_normpath_slash _ hM1]
  have hsplit : splitSlashAux ('/' :: joinSlashAux (comps ++ [dotdotC])) =
      [] :: (comps ++ [dotdotC]) := by
    have : splitSlashAux ('/' :: joinSlashAux (comps ++ [dotdotC])) =
        [] :: splitSlashAux (joinSlashAux (comps ++ [dotdotC])) := by
      simp [splitSlashAux]
    rw [this, splitSlashAux_joinSlashAux _ hslashfree (by simp)]
  rw [hsplit]
  have hstep0 : normStep 1 [] [] = [] := rfl
  rw [List.foldl_cons, hstep0, List.foldl_append,
    normFold_ordinary comps 1 []
      (fun c hc => ⟨(h c hc).1, (h c hc).2.2.1, (h c hc).2.2.2⟩),
    List.nil_append, List.foldl_cons, List.foldl_nil,
    normStep_dotdot 1 (by decide) comps (fun c hc => (h c hc).2.2.2)]
  rfl

theorem posix_isabs_data (a : String) (ha : posix_isabs a = true) :
    ∃ t, a.data = '/' :: t := by
  simp only [posix_isabs, decide_eq_true_eq] at ha
  cases hd : a.data with
  | nil => rw [hd] at ha; cases ha
  | cons c t =>
    rw [hd] at ha
    simp only [List.take_succ_cons, List.take_zero, List.cons.injEq] at ha
    exact ⟨t, by rw [ha.1]⟩

theorem posix_isabs_join (a b : String) (ha : posix_isabs a = true) :
    posix_isabs (posix_join a b) = true := by
  obtain ⟨t, ht⟩ := posix_isabs_data a ha
  rw [posix_join]
  by_cases hb : posix_isabs b = true
  · rw [if_pos hb]; exact hb
  · rw [if_neg hb]
    by_cases h2 : a = "" ∨ a.data.getLast? = some '/'
    · rw [if_pos h2]
      simp [posix_isabs, string_data_mk, ht]
    · rw [if_neg h2]
      simp [posix_isabs, string_data_mk, ht]

/-- C1: with `main_class = "com.example.Main"` and no extra args, the result
is exactly the six-element command, in order. -/
theorem mmt_javamain_no_args_exact (e : Env) :
    mmt_javamain e ("com.example.Main") none =
      ["java", "-cp", MMT_JAR e, "-Dmmt.home=" ++ MMT_ROOT e,
        "-Djava.library.path=" ++ MMT_LIBS e, "com.example.Main"] := rfl

/-- C2: for every main class and every supplied argument list, the result is
the fixed six-element part followed by the arguments in order; with no
argument list supplied, nothing further is appended. -/
theorem mmt_javamain_appends_args (e : Env) (main_class : String)
    (args : List String) :
    mmt_javamain e main_class (some args) =
      ["java", "-cp", MMT_JAR e, "-Dmmt.home=" ++ MMT_ROOT e,
        "-Djava.library.path=" ++ MMT_LIBS e, main_class] ++ args ∧
    mmt_javamain e main_class none =
      ["java", "-cp", MMT_JAR e, "-Dmmt.home=" ++ MMT_ROOT e,
        "-Djava.library.path=" ++ MMT_LIBS e, main_class] :=
  ⟨rfl, rfl⟩

/-- C7: omitting the argument list and passing an empty argument list give
the same result. -/
theorem mmt_javamain_none_eq_empty (e : Env) (main_class : String) :
    mmt_javamain e main_class none = mmt_javamain e main_class (some []) := by
  simp [mmt_javamain]

/-- C10: the empty string is accepted as a main class: the call returns
normally the usual six-element command with `""` at index 5. -/
theorem mmt_javamain_empty_main_class (e : Env) :
    mmt_javamain e ("") none =
      ["java", "-cp", MMT_JAR e, "-Dmmt.home=" ++ MMT_ROOT e,
        "-Djava.library.path=" ++ MMT_LIBS e, ""] ∧
    (mmt_javamain e ("") none).length = 6 ∧
    (mmt_javamain e ("") none).getD 5 ("x") = "" :=
  ⟨rfl, rfl, rfl⟩

/-- C8: `mmt_javamain` is a total pure function of its inputs and the path
constants: on every input its value is the fixed six-element part followed
by the supplied arguments (nothing when absent), so no error is raised and
no effect is performed. -/
theorem mmt_javamain_total_pure (e : Env) (main_class : String)
    (args : Option (List String)) :
    mmt_javamain e main_class args =
      ["java", "-cp", MMT_JAR e, "-Dmmt.home=" ++ MMT_ROOT e,
        "-Djava.library.path=" ++ MMT_LIBS e, main_class] ++ args.getD [] := by
  cases args <;> simp [mmt_javamain]

/-- C4: the jar path equals the build directory joined with
`"mmt-" + version + ".jar"` for the current version, identically in the
environment (so repeated reads agree and the two can never disagree). -/
theorem mmt_jar_consistent (e : Env) :
    MMT_JAR e = posix_join (BUILD_DIR e) ("mmt-" ++ MMT_VERSION ++ ".jar") ∧
    MMT_VERSION = "0.11.1" :=
  ⟨rfl, rfl⟩

/-- C5: each derived directory is the stated static join of the root and its
literal name, `BIN_DIR` is `OPT_DIR` joined with `bin`, and `MMT_LIBS`
equals `BUILD_DIR`. -/
theorem derived_dirs_static_joins (e : Env) :
    ENGINES_DIR e = posix_join (MMT_ROOT e) "engines" ∧
    RUNTIME_DIR e = posix_join (MMT_ROOT e) "runtime" ∧
    OPT_DIR e = posix_join (MMT_ROOT e) "opt" ∧
    LIB_DIR e = posix_join (MMT_ROOT e) "lib" ∧
    BUILD_DIR e = posix_join (MMT_ROOT e) "build" ∧
    BIN_DIR e = posix_join (OPT_DIR e) "bin" ∧
    MMT_LIBS e = BUILD_DIR e :=
  ⟨rfl, rfl, rfl, rfl, rfl, rfl, rfl⟩

/-- C3: `mmt_javamain` is deterministic: element-wise equal inputs give
element-wise identical outputs, and the first six positions always hold the
classpath flag, system properties and main class in the same fixed order. -/
theorem mmt_javamain_deterministic (e e' : Env) (mc mc' : String)
    (a a' : Option (List String)) (h1 : e = e') (h2 : mc = mc')
    (h3 : a = a') :
    mmt_javamain e mc a = mmt_javamain e' mc' a' ∧
    (mmt_javamain e mc a).take 6 =
      ["java", "-cp", MMT_JAR e, "-Dmmt.home=" ++ MMT_ROOT e,
        "-Djava.library.path=" ++ MMT_LIBS e, mc] := by
  subst h1; subst h2; subst h3
  refine ⟨rfl, ?_⟩
  cases a <;> simp [mmt_javamain]

/-- C9: the heap-level call leaves the argument object unchanged, returns a
freshly allocated object distinct from the argument object whose content is
the pure `mmt_javamain` value, and mutating the returned object does not
alter the result of a subsequent call on the same argument object. -/
theorem mmt_javamain_no_arg_mutation (e e2 : Env) (h : PyHeap)
    (mc mc2 : String) (r : Nat) (v : List String)
    (hr : r < h.cells.length) :
    heapRead (mmt_javamain_heap e h mc (some r)).1 r = heapRead h r ∧
    (mmt_javamain_heap e h mc (some r)).2 ≠ r ∧
    heapRead (mmt_javamain_heap e h mc (some r)).1
        (mmt_javamain_heap e h mc (some r)).2 =
      mmt_javamain e mc (some (heapRead h r)) ∧
    heapRead (mmt_javamain_heap e2
          (heapWrite (mmt_javamain_heap e h mc (some r)).1
            (mmt_javamain_heap e h mc (some r)).2 v) mc2 (some r)).1
        (mmt_javamain_heap e2
          (heapWrite (mmt_javamain_heap e h mc (some r)).1
            (mmt_javamain_heap e h mc (some r)).2 v) mc2 (some r)).2 =
      mmt_javamain e2 mc2 (some (heapRead h r)) := by
  have hfst := mmt_javamain_heap_frame e h mc r r hr
  have hlen2 : (mmt_javamain_heap e h mc (some r)).2 = h.cells.length := by
    simp [mmt_javamain_heap, heapAlloc]
  refine ⟨hfst, ?_, mmt_javamain_heap_value e h mc r hr, ?_⟩
  · rw [hlen2]; omega
  · have hr2 : r < (heapWrite (mmt_javamain_heap e h mc (some r)).1
        (mmt_javamain_heap e h mc (some r)).2 v).cells.length := by
      simp [heapWrite, mmt_javamain_heap, heapAlloc, heapRead]
      omega
    rw [mmt_javamain_heap_value e2 _ mc2 r hr2]
    have hread : heapRead (heapWrite (mmt_javamain_heap e h mc (some r)).1
        (mmt_javamain_heap e h mc (some r)).2 v) r = heapRead h r := by
      simp only [heapWrite, heapRead]
      rw [listGetD_set_ne _ _ _ _ _ (by rw [hlen2]; omega)]
      exact hfst
    rw [hread]

/-- Witness for C9 at a concrete environment, heap and inputs. -/
theorem mmt_javamain_no_arg_mutation_witness :
    0 < heapA.cells.length ∧
    (heapRead (mmt_javamain_heap envA heapA ("M") (some 0)).1 0 =
        heapRead heapA 0 ∧
    (mmt_javamain_heap envA heapA ("M") (some 0)).2 ≠ 0 ∧
    heapRead (mmt_javamain_heap envA heapA ("M") (some 0)).1
        (mmt_javamain_heap envA heapA ("M") (some 0)).2 =
      mmt_javamain envA ("M") (some (heapRead heapA 0)) ∧
    heapRead (mmt_javamain_heap envA
          (heapWrite (mmt_javamain_heap envA heapA ("M") (some 0)).1
            (mmt_javamain_heap envA heapA ("M") (some 0)).2 ["z"])
          ("N") (some 0)).1
        (mmt_javamain_heap envA
          (heapWrite (mmt_javamain_heap envA heapA ("M") (some 0)).1
            (mmt_javamain_heap envA heapA ("M") (some 0)).2 ["z"])
          ("N") (some 0)).2 =
      mmt_javamain envA ("N") (some (heapRead heapA 0))) :=
  ⟨by decide, mmt_javamain_no_arg_mutation envA envA heapA ("M") ("N") 0
    ["z"] (by decide)⟩

/-- C6: for every valid anchor (a canonical absolute path presented by its
slash-separated components, the shape `realpath` produces), the root
constant is the parent directory of the anchor (the anchor's components
with the last one removed), the root does not depend on the working
directory, and every exposed path constant is an absolute path. -/
theorem mmt_root_parent_and_absolute (cwd cwd' : String)
    (comps : List (List Char)) (h : ∀ c ∈ comps, validComp c) :
    MMT_ROOT ⟨cwd, mkAbs comps⟩ = mkAbs comps.dropLast ∧
    MMT_ROOT ⟨cwd, mkAbs comps⟩ = MMT_ROOT ⟨cwd', mkAbs comps⟩ ∧
    posix_isabs (MMT_ROOT ⟨cwd, mkAbs comps⟩) = true ∧
    posix_isabs (ENGINES_DIR ⟨cwd, mkAbs comps⟩) = true ∧
    posix_isabs (RUNTIME_DIR ⟨cwd, mkAbs comps⟩) = true ∧
    posix_isabs (OPT_DIR ⟨cwd, mkAbs comps⟩) = true ∧
    posix_isabs (LIB_DIR ⟨cwd, mkAbs comps⟩) = true ∧
    posix_isabs (BUILD_DIR ⟨cwd, mkAbs comps⟩) = true ∧
    posix_isabs (BIN_DIR ⟨cwd, mkAbs comps⟩) = true ∧
    posix_isabs (MMT_JAR ⟨cwd, mkAbs comps⟩) = true ∧
    posix_isabs (MMT_LIBS ⟨cwd, mkAbs comps⟩) = true := by
  have hroot := mmt_root_parent_core cwd comps h
  have hroot' := mmt_root_parent_core cwd' comps h
  have habs : posix_isabs (MMT_ROOT ⟨cwd, mkAbs comps⟩) = true := by
    rw [hroot]
    simp [posix_isabs, mkAbs]
  refine ⟨hroot, hroot.trans hroot'.symm, habs,
    posix_isabs_join _ _ habs, posix_isabs_join _ _ habs,
    posix_isabs_join _ _ habs, posix_isabs_join _ _ habs,
    posix_isabs_join _ _ habs,
    posix_isabs_join _ _ (posix_isabs_join _ _ habs),
    posix_isabs_join _ _ (posix_isabs_join _ _ habs),
    posix_isabs_join _ _ habs⟩

/-- Witness for C6 at the concrete anchor `/home/mmt/scripts`. -/
theorem mmt_root_parent_and_absolute_witness :
    (∀ c ∈ [("home").data, ("mmt").data, ("scripts").data], validComp c) ∧
    (MMT_ROOT ⟨"/", mkAbs [("home").data, ("mmt").data, ("scripts").data]⟩ =
        mkAbs ([("home").data, ("mmt").data, ("scripts").data].dropLast) ∧
    MMT_ROOT ⟨"/", mkAbs [("home").data, ("mmt").data, ("scripts").data]⟩ =
      MMT_ROOT ⟨"/x", mkAbs [("home").data, ("mmt").data, ("scripts").data]⟩ ∧
    posix_isabs (MMT_ROOT
      ⟨"/", mkAbs [("home").data, ("mmt").data, ("scripts").data]⟩) = true ∧
    posix_isabs (ENGINES_DIR
      ⟨"/", mkAbs [("home").data, ("mmt").data, ("scripts").data]⟩) = true ∧
    posix_isabs (RUNTIME_DIR
      ⟨"/", mkAbs [("home").data, ("mmt").data, ("scripts").data]⟩) = true ∧
    posix_isabs (OPT_DIR
      ⟨"/", mkAbs [("home").data, ("mmt").data, ("scripts").data]⟩) = true ∧
    posix_isabs (LIB_DIR
      ⟨"/", mkAbs [("home").data, ("mmt").data, ("scripts").data]⟩) = true ∧
    posix_isabs (BUILD_DIR
      ⟨"/", mkAbs [("home").data, ("mmt").data, ("scripts").data]⟩) = true ∧
    posix_isabs (BIN_DIR
      ⟨"/", mkAbs [("home").data, ("mmt").data, ("scripts").data]⟩) = true ∧
    posix_isabs (MMT_JAR
      ⟨"/", mkAbs [("home").data, ("mmt").data, ("scripts").data]⟩) = true ∧
    posix_isabs (MMT_LIBS
      ⟨"/", mkAbs [("home").data, ("mmt").data, ("scripts").data]⟩) = true) :=
  ⟨by decide, mmt_root_parent_and_absolute ("/") ("/x")
    [("home").data, ("mmt").data, ("scripts").data] (by decide)⟩

/-- Witness for C3 at a concrete environment and input. -/
theorem mmt_javamain_deterministic_witness :
    (Env.mk "/" "/mmt/scripts") = (Env.mk "/" "/mmt/scripts") ∧
    ("Main" : String) = "Main" ∧
    (some ["--x"] : Option (List String)) = some ["--x"] ∧
    (mmt_javamain (Env.mk "/" "/mmt/scripts") ("Main") (some ["--x"]) =
      mmt_javamain (Env.mk "/" "/mmt/scripts") ("Main") (some ["--x"]) ∧
    (mmt_javamain (Env.mk "/" "/mmt/scripts") ("Main")
        (some ["--x"])).take 6 =
      ["java", "-cp", MMT_JAR (Env.mk "/" "/mmt/scripts"),
        "-Dmmt.home=" ++ MMT_ROOT (Env.mk "/" "/mmt/scripts"),
        "-Djava.library.path=" ++ MMT_LIBS (Env.mk "/" "/mmt/scripts"),
        "Main"]) :=
  ⟨rfl, rfl, rfl,
    mmt_javamain_deterministic (Env.mk "/" "/mmt/scripts")
      (Env.mk "/" "/mmt/scripts") ("Main") ("Main") (some ["--x"])
      (some ["--x"]) rfl rfl rfl⟩
